import Mathlib

/-!
Verification of the Vivado compile-order integration module
(`vunit/vivado/vivado.py`).

The module has three entry points:
* `_read_compile_order` parses a comma-separated compile-order file into a
  deduplicated compile list, a set of library names, and a set of Verilog
  include directories;
* `add_from_compile_order_file` registers the parsed files with the build
  tool, forming a linear dependency chain;
* `create_compile_order_file` / `run_vivado` shell out to the external tool.

The development below is a shallow embedding: Python strings become `String`,
`set`s become duplicate-free lists in insertion order, raised exceptions
become `Except.error`, and the external world (file system, subprocess) is
passed in explicitly.
-/

set_option maxHeartbeats 1000000

namespace Vivado

/-! ### String literals used by the source -/

def tVerilog : String := "Verilog"

def tVHDL : String := "VHDL"

def tHeader : String := "Verilog Header"

def defaultLib : String := "xil_defaultlib"

def valueErrorMsg : String := "ValueError: not enough values to unpack"

def assertErrorMsg : String := "AssertionError"

def calledProcessErrorMsg : String := "CalledProcessError"

def fileNotFoundMsg : String := "FileNotFoundError"

def fileExistsMsg : String := "FileExistsError"

def extractTclName : String := "extract_compile_order.tcl"

/-! ### Models of the Python string and path primitives used by the source -/

/-- The whitespace characters stripped by Python `str.strip()` (ASCII part). -/
def pyIsSpace (c : Char) : Bool :=
  c = ' ' || c = '\t' || c = '\n' || c = '\x0b' || c = '\x0c' || c = '\r'

/-- Model of Python `str.strip()`: remove leading and trailing whitespace. -/
def pyStrip (s : String) : String :=
  String.mk (((s.data.dropWhile pyIsSpace).reverse.dropWhile pyIsSpace).reverse)

/-- Split a character list at its first comma: the part before the comma and,
when a comma exists, the remainder after it. -/
def breakComma : List Char → List Char × Option (List Char)
  | [] => ([], none)
  | c :: cs =>
    if c = ',' then ([], some cs)
    else
      let p := breakComma cs
      (c :: p.1, p.2)

/-- Model of Python `s.split(",", maxsplit=2)`: at most three parts. -/
def pySplit2 (l : List Char) : List (List Char) :=
  match breakComma l with
  | (a, none) => [a]
  | (a, some r) =>
    match breakComma r with
    | (b, none) => [a, b]
    | (b, some r2) => [a, b, r2]

/-- Model of `os.path.basename` (POSIX): everything after the last slash. -/
def py_basename (s : String) : String :=
  String.mk ((s.data.reverse.takeWhile (fun c => c ≠ '/')).reverse)

/-- Model of `os.path.dirname` (POSIX): `p[:p.rfind('/') + 1]`, with trailing
slashes then stripped unless the head consists solely of slashes. -/
def py_dirname (s : String) : String :=
  let head := (s.data.reverse.dropWhile (fun c => c ≠ '/')).reverse
  if head = [] then String.mk []
  else if head.all (fun c => c = '/') then String.mk head
  else String.mk ((head.reverse.dropWhile (fun c => c = '/')).reverse)

/-- Suffix test on character lists, used to model Python `str.endswith`. -/
def listEndsWith (l suf : List Char) : Bool :=
  decide (l.reverse.take suf.length = suf.reverse)

/-- Model of Python `str.endswith` for a plain suffix string. -/
def py_endswith (s suf : String) : Bool :=
  listEndsWith s.data suf.data

/-- Prefix test on character lists, used to model Python `str.startswith`. -/
def listStartsWith (l pre : List Char) : Bool :=
  decide (l.take pre.length = pre)

/-- Model of Python `str.startswith` for a plain prefix string. -/
def py_startswith (s pre : String) : Bool :=
  listStartsWith s.data pre.data

/-- Model of `os.path.join` (POSIX) on two components. -/
def py_join (a b : String) : String :=
  if py_startswith b (String.mk ['/']) then b
  else if a = String.mk [] || py_endswith a (String.mk ['/']) then a ++ b
  else a ++ String.mk ['/'] ++ b

/-! ### The compile-order line parser (`_read_compile_order`) -/

/-- One parsed compile-order line: `library,type,path`. -/
structure Entry where
  library_name : String
  file_type : String
  file_name : String
deriving DecidableEq, Repr

/-- The deduplication key used by the source:
`(library_name, basename(file_name))`. -/
def entryKey (e : Entry) : String × String :=
  (e.library_name, py_basename e.file_name)

/-- The assertion `file_type in ("Verilog", "VHDL", "Verilog Header")`. -/
def validType (t : String) : Prop :=
  t = tVerilog ∨ t = tVHDL ∨ t = tHeader

instance (t : String) : Decidable (validType t) := by
  unfold validType; infer_instance

/-- Model of `line.strip().split(",", maxsplit=2)` unpacked into three
variables; fewer than three parts raises `ValueError`. -/
def parseLine (line : String) : Except String Entry :=
  match pySplit2 (pyStrip line).data with
  | [a, b, c] => Except.ok ⟨String.mk a, String.mk b, String.mk c⟩
  | _ => Except.error valueErrorMsg

/-- Parse every line; the first failing line aborts the parse. -/
def parseAll : List String → Except String (List Entry)
  | [] => Except.ok []
  | l :: rest =>
    match parseLine l with
    | Except.error m => Except.error m
    | Except.ok e =>
      match parseAll rest with
      | Except.error m => Except.error m
      | Except.ok es => Except.ok (e :: es)

/-- The loop state of `_read_compile_order`.  The Python `set`s `unique`,
`include_dirs` and `libraries` are modelled as duplicate-free lists in
insertion order. -/
structure ParseState where
  compile_order : List (String × String)
  unique : List (String × String)
  include_dirs : List String
  libraries : List String
deriving DecidableEq, Repr

def initState : ParseState :=
  ⟨[], [], [], []⟩

/-- Model of `set.add`: append the element when it is not yet present. -/
def insertIfAbsent {α : Type} [DecidableEq α] (a : α) (l : List α) : List α :=
  if a ∈ l then l else l ++ [a]

/-- The body of the `for` loop of `_read_compile_order` for one parsed,
type-checked line. -/
def step (st : ParseState) (e : Entry) : ParseState :=
  if entryKey e ∈ st.unique then
    { st with libraries := insertIfAbsent e.library_name st.libraries }
  else if e.file_type = tHeader then
    { st with
      libraries := insertIfAbsent e.library_name st.libraries
      unique := st.unique ++ [entryKey e]
      include_dirs := insertIfAbsent (py_dirname e.file_name) st.include_dirs }
  else
    { st with
      libraries := insertIfAbsent e.library_name st.libraries
      unique := st.unique ++ [entryKey e]
      compile_order := st.compile_order ++ [(e.library_name, e.file_name)] }

/-- One iteration of the loop on a raw line: unpack, assert the type, then
run `step`. -/
def processLine (st : ParseState) (line : String) : Except String ParseState :=
  match parseLine line with
  | Except.error m => Except.error m
  | Except.ok e =>
    if validType e.file_type then Except.ok (step st e)
    else Except.error assertErrorMsg

/-- The whole `for` loop of `_read_compile_order`. -/
def runLines (st : ParseState) : List String → Except String ParseState
  | [] => Except.ok st
  | l :: rest =>
    match processLine st l with
    | Except.error m => Except.error m
    | Except.ok st2 => runLines st2 rest

/-- Model of `_read_compile_order`: the input file is given as its list of
lines; the result is `(compile_order, libraries, list(include_dirs))`. -/
def read_compile_order (lines : List String) :
    Except String (List (String × String) × List String × List String) :=
  match runLines initState lines with
  | Except.error m => Except.error m
  | Except.ok st => Except.ok (st.compile_order, st.libraries, st.include_dirs)

/-! ### The registration model (`add_from_compile_order_file`) -/

/-- One call to `vunit_obj.library(library_name).add_source_file(...)` together
with the dependency edge attached to the returned handle.  `dependency` holds
the index, in registration order, of the `previous_source` the file was made to
depend on (`none` for the first file). -/
structure SourceFileReg where
  library_name : String
  file_name : String
  no_parse : Bool
  include_dirs_arg : Option (List String)
  dependency : Option Nat
deriving DecidableEq, Repr

/-- `file_name.endswith(".v") or file_name.endswith(".vp")`. -/
def is_verilog (file_name : String) : Bool :=
  py_endswith file_name (String.mk ['.', 'v']) || py_endswith file_name (String.mk ['.', 'v', 'p'])

/-- The registration loop of `add_from_compile_order_file`: `prev` is the index
of `previous_source` and `i` the index of the next file to register. -/
def addSourceFiles (include_dirs : List String) :
    Option Nat → Nat → List (String × String) → List SourceFileReg
  | _, _, [] => []
  | prev, i, (library_name, file_name) :: rest =>
    { library_name := library_name
      file_name := file_name
      no_parse := decide (library_name ≠ defaultLib)
      include_dirs_arg := if is_verilog file_name then some include_dirs else none
      dependency := prev } :: addSourceFiles include_dirs (some i) (i + 1) rest

/-- Model of `add_from_compile_order_file`: parse the compile-order file, then
return the libraries created (each via `add_library(name, vhdl_standard="93")`)
and the source-file registrations performed. -/
def add_from_compile_order_file (lines : List String) :
    Except String (List String × List SourceFileReg) :=
  match read_compile_order lines with
  | Except.error m => Except.error m
  | Except.ok (compile_order, libraries, include_dirs) =>
    Except.ok (libraries, addSourceFiles include_dirs none 0 compile_order)

/-! ### The external-tool model (`run_vivado`, `create_compile_order_file`)

The subprocess is modelled by a `runner` function mapping the working
directory and the command line to the exit status of the external process,
and `os.path.abspath` (which depends on the current working directory) by an
explicit `abspath` function. -/

/-- Model of `subprocess.check_call(cmd, cwd=cwd, shell=True)`: raises
`CalledProcessError` exactly when the exit status is non-zero. -/
def check_call (runner : Option String → String → Int) (cwd : Option String)
    (cmd : String) : Except String Unit :=
  if runner cwd cmd = 0 then Except.ok () else Except.error calledProcessErrorMsg

/-- The command line built by `run_vivado`. -/
def build_vivado_cmd (abspath : String → String) (tcl_file_name : String)
    (tcl_args : Option (List String)) (vivado_path : Option String) : String :=
  let vivado :=
    match vivado_path with
    | none => String.mk ['v', 'i', 'v', 'a', 'd', 'o']
    | some p => py_join (py_join (abspath p) (String.mk ['b', 'i', 'n'])) (String.mk ['v', 'i', 'v', 'a', 'd', 'o'])
  let cmd := vivado ++ " -nojournal -nolog -notrace -mode batch -source " ++ abspath tcl_file_name
  match tcl_args with
  | none => cmd
  | some args => cmd ++ " -tclargs " ++ String.intercalate (String.mk [' ']) args

/-- Model of `run_vivado`: build the command line and hand it to
`check_call`. -/
def run_vivado (runner : Option String → String → Int) (abspath : String → String)
    (tcl_file_name : String) (tcl_args : Option (List String)) (cwd : Option String)
    (vivado_path : Option String) : Except String Unit :=
  check_call runner cwd (build_vivado_cmd abspath tcl_file_name tcl_args vivado_path)

/-- Model of `os.path.exists` on a file system given as the list of existing
paths: `stat` on the empty pathname fails with `ENOENT`, so the empty string
never exists. -/
def py_exists (fs : List String) (p : String) : Bool :=
  if p = String.mk [] then false else p ∈ fs

/-- The chain of directories `os.makedirs` creates: the path and its missing
ancestors, stopping at the root or at an empty head.  The fuel argument bounds
the recursion by the length of the path. -/
def ancestorChain (p : String) : Nat → List String
  | 0 => []
  | fuel + 1 =>
    if p = String.mk [] || p = String.mk ['/'] then []
    else p :: ancestorChain (py_dirname p) fuel

/-- Model of `os.makedirs(p)` (default `exist_ok=False`): the recursion on an
empty path reaches `mkdir("")`, which raises `FileNotFoundError`; a path that
already exists raises `FileExistsError`; otherwise the path and its missing
ancestors are created. -/
def py_makedirs (fs : List String) (p : String) : Except String (List String) :=
  if p = String.mk [] then Except.error fileNotFoundMsg
  else if py_exists fs p then Except.error fileExistsMsg
  else Except.ok (fs ++ ancestorChain p p.length)

/-- Model of `create_compile_order_file`: ensure the parent directory of the
output file exists, then run the extraction script through `run_vivado`.
`file_dir` models `dirname(__file__)`; the returned list is the file system
after directory creation. -/
def create_compile_order_file (fs : List String)
    (runner : Option String → String → Int) (abspath : String → String)
    (file_dir : String) (project_file compile_order_file : String)
    (vivado_path : Option String) : Except String (List String) :=
  let d := py_dirname compile_order_file
  match (if py_exists fs d then Except.ok fs else py_makedirs fs d : Except String (List String)) with
  | Except.error m => Except.error m
  | Except.ok fs2 =>
    let tcl := py_join (py_join file_dir (String.mk ['t', 'c', 'l'])) extractTclName
    match run_vivado runner abspath tcl (some [project_file, compile_order_file]) none vivado_path with
    | Except.error m => Except.error m
    | Except.ok _ => Except.ok fs2

/-! ### Reference definitions (spec side)

These restate the intended outcome of the parse as a pipeline over the list
of parsed entries, to be compared with the one-pass loop above. -/

/-- Keep, for each distinct `entryKey`, only the first entry carrying it. -/
def dedupByKey : List Entry → List Entry
  | [] => []
  | e :: rest => e :: dedupByKey (rest.filter (fun x => decide (entryKey x ≠ entryKey e)))
termination_by l => l.length
decreasing_by
  simp only [List.length_cons, Nat.lt_succ_iff]
  exact List.length_filter_le _ _

/-- The compile list as the spec describes it: deduplicate by key keeping
first occurrences, drop the header entries, and project each remaining entry
to `(library_name, file_name)`. -/
def refCompileList (entries : List Entry) : List (String × String) :=
  ((dedupByKey entries).filter (fun e => decide (e.file_type ≠ tHeader))).map
    (fun e => (e.library_name, e.file_name))

/-- `[some i, some (i+1), ..., some (i+n-1)]`. -/
def someRange (i n : Nat) : List (Option Nat) :=
  (List.range n).map (fun j => some (i + j))

/-- The dependency column of a linear chain of `n` registrations: the first
file has no predecessor, file `j > 0` depends on file `j - 1`. -/
def chainDeps : Nat → List (Option Nat)
  | 0 => []
  | n + 1 => none :: someRange 0 n

/-- The parsed entries of a file, with `[]` for a failing parse; used to state
concrete counterexamples. -/
def parsedEntries (lines : List String) : List Entry :=
  match parseAll lines with
  | Except.ok es => es
  | Except.error _ => []

/-- The invariant tying `unique` to `libraries`: every seen key's library was
added to the library set. -/
def stateGood (st : ParseState) : Prop :=
  ∀ k : String × String, k ∈ st.unique → k.1 ∈ st.libraries

/-- Decidable equality for `Except`, used to evaluate concrete runs. -/
instance {ε α : Type} [DecidableEq ε] [DecidableEq α] : DecidableEq (Except ε α)
  | Except.ok x, Except.ok y =>
    if h : x = y then isTrue (by rw [h]) else isFalse (by intro hc; cases hc; exact h rfl)
  | Except.ok _, Except.error _ => isFalse (by intro hc; cases hc)
  | Except.error _, Except.ok _ => isFalse (by intro hc; cases hc)
  | Except.error x, Except.error y =>
    if h : x = y then isTrue (by rw [h]) else isFalse (by intro hc; cases hc; exact h rfl)

/-! ### Concrete inputs used to exercise the theorems -/

def sLibA : String := "libA"

def sLibB : String := "libB"

def paVhd : String := "/p/a.vhd"

def p2aVhd : String := "/p2/a.vhd"

def pIncH : String := "/p/inc/h.vh"

def pInc : String := "/p/inc"

def pbV : String := "/p/b.v"

def paVh : String := "/p/a.vh"

def qaVh : String := "/q/a.vh"

def aVh : String := "a.vh"

def pDir : String := "/p"

def phVh : String := "/p/h.vh"

def qhVh : String := "/q/h.vh"

def qDir : String := "/q"

def sysC : String := "SystemC"

def xVhd : String := "/p/x.vhd"

def outCsv : String := "out.csv"

/-- The worked example of the specification: four lines, one duplicated
basename, one Verilog header. -/
def wLines : List String :=
  [r"libA,VHDL,/p/a.vhd", r"libA,Verilog Header,/p/inc/h.vh",
   r"libB,Verilog,/p/b.v", r"libA,VHDL,/p2/a.vhd"]

def wEntries : List Entry :=
  [Entry.mk sLibA tVHDL paVhd, Entry.mk sLibA tHeader pIncH,
   Entry.mk sLibB tVerilog pbV, Entry.mk sLibA tVHDL p2aVhd]

def wRegs : List SourceFileReg :=
  [SourceFileReg.mk sLibA paVhd true none none,
   SourceFileReg.mk sLibB pbV true (some [pInc]) (some 0)]

def wReg1 : SourceFileReg :=
  SourceFileReg.mk sLibB pbV true (some [pInc]) (some 0)

/-- A header line followed by a source line with the same key. -/
def cexHeaderFirstLines : List String :=
  [r"libA,Verilog Header,/p/a.vh", r"libA,VHDL,/q/a.vh"]

/-- A source line followed by a header line with the same key. -/
def cexSourceFirstLines : List String :=
  [r"libA,Verilog,/p/h.vh", r"libA,Verilog Header,/q/h.vh"]

def srcLine : String := r"libA,Verilog,/p/h.vh"

def hdrLine : String := r"libA,Verilog Header,/q/h.vh"

def dupLineA : String := r"libA,VHDL,/p/a.vhd"

def dupLineB : String := r"libA,VHDL,/p2/a.vhd"

def badTypeLine : String := r"libA,SystemC,/p/x.vhd"

def blankLine : String := "\n"

/-! ### Lemmas about `insertIfAbsent` -/

theorem mem_insertIfAbsent_self {α : Type} [DecidableEq α] (a : α) (l : List α) :
    a ∈ insertIfAbsent a l := by
  unfold insertIfAbsent
  split
  · assumption
  · exact List.mem_append_right _ (List.mem_singleton_self a)

theorem mem_insertIfAbsent_of_mem {α : Type} [DecidableEq α] {b : α} (a : α) {l : List α}
    (h : b ∈ l) : b ∈ insertIfAbsent a l := by
  unfold insertIfAbsent
  split
  · exact h
  · exact List.mem_append_left _ h

theorem insertIfAbsent_eq_of_mem {α : Type} [DecidableEq α] {a : α} {l : List α}
    (h : a ∈ l) : insertIfAbsent a l = l := by
  unfold insertIfAbsent
  simp [h]

theorem nodup_insertIfAbsent {α : Type} [DecidableEq α] (a : α) {l : List α}
    (h : l.Nodup) : (insertIfAbsent a l).Nodup := by
  unfold insertIfAbsent
  split
  · exact h
  · next hna =>
    rw [List.nodup_append]
    refine ⟨h, List.nodup_singleton a, ?_⟩
    intro x hx hx1
    rw [List.mem_singleton] at hx1
    subst hx1
    exact hna hx

/-! ### Lemmas about `step` -/

theorem unique_step_mono {k : String × String} {st : ParseState} (e : Entry)
    (h : k ∈ st.unique) : k ∈ (step st e).unique := by
  unfold step
  split
  · exact h
  · split
    · exact List.mem_append_left _ h
    · exact List.mem_append_left _ h

theorem mem_unique_step {k : String × String} {st : ParseState} {e : Entry}
    (h : k ∈ (step st e).unique) : k ∈ st.unique ∨ k = entryKey e := by
  unfold step at h
  split at h
  · exact Or.inl h
  · split at h
    all_goals
      rcases List.mem_append.mp h with h1 | h1
      · exact Or.inl h1
      · exact Or.inr (List.mem_singleton.mp h1)

theorem key_mem_unique_step (st : ParseState) (e : Entry) :
    entryKey e ∈ (step st e).unique := by
  unfold step
  split
  · assumption
  · split
    all_goals exact List.mem_append_right _ (List.mem_singleton_self _)

theorem incl_step_mono {d : String} {st : ParseState} (e : Entry)
    (h : d ∈ st.include_dirs) : d ∈ (step st e).include_dirs := by
  unfold step
  split
  · exact h
  · split
    · exact mem_insertIfAbsent_of_mem _ h
    · exact h

theorem lib_mem_step (st : ParseState) (e : Entry) :
    e.library_name ∈ (step st e).libraries := by
  unfold step
  split
  · exact mem_insertIfAbsent_self _ _
  · split
    all_goals exact mem_insertIfAbsent_self _ _

theorem lib_step_mono {n : String} {st : ParseState} (e : Entry)
    (h : n ∈ st.libraries) : n ∈ (step st e).libraries := by
  unfold step
  split
  · exact mem_insertIfAbsent_of_mem _ h
  · split
    all_goals exact mem_insertIfAbsent_of_mem _ h

theorem step_eq_of_seen {st : ParseState} {e : Entry}
    (hk : entryKey e ∈ st.unique) (hl : e.library_name ∈ st.libraries) :
    step st e = st := by
  unfold step
  rw [if_pos hk, insertIfAbsent_eq_of_mem hl]

theorem nodup_incl_step {st : ParseState} (e : Entry)
    (h : st.include_dirs.Nodup) : (step st e).include_dirs.Nodup := by
  unfold step
  split
  · exact h
  · split
    · exact nodup_insertIfAbsent _ h
    · exact h

theorem stateGood_init : stateGood initState := by
  intro k hk
  cases hk

theorem stateGood_step {st : ParseState} (e : Entry) (h : stateGood st) :
    stateGood (step st e) := by
  intro k hk
  rcases mem_unique_step hk with h1 | h1
  · exact lib_step_mono e (h k h1)
  · subst h1
    exact lib_mem_step st e

/-! ### Lemmas about `List.foldl step` -/

theorem foldl_unique_mono {k : String × String} :
    ∀ (entries : List Entry) (st : ParseState), k ∈ st.unique →
      k ∈ (entries.foldl step st).unique
  | [], _, h => h
  | e :: rest, st, h => foldl_unique_mono rest (step st e) (unique_step_mono e h)

theorem foldl_incl_mono {d : String} :
    ∀ (entries : List Entry) (st : ParseState), d ∈ st.include_dirs →
      d ∈ (entries.foldl step st).include_dirs
  | [], _, h => h
  | e :: rest, st, h => foldl_incl_mono rest (step st e) (incl_step_mono e h)

theorem foldl_key_mem {e : Entry} :
    ∀ (entries : List Entry) (st : ParseState), e ∈ entries →
      entryKey e ∈ (entries.foldl step st).unique := by
  intro entries
  induction entries with
  | nil => intro st h; cases h
  | cons x rest ih =>
    intro st h
    rcases List.mem_cons.mp h with h1 | h1
    · subst h1
      exact foldl_unique_mono rest (step st e) (key_mem_unique_step st e)
    · exact ih (step st x) h1

theorem foldl_stateGood :
    ∀ (entries : List Entry) (st : ParseState), stateGood st →
      stateGood (entries.foldl step st)
  | [], _, h => h
  | e :: rest, st, h => foldl_stateGood rest (step st e) (stateGood_step e h)

theorem foldl_nodup_incl :
    ∀ (entries : List Entry) (st : ParseState), st.include_dirs.Nodup →
      (entries.foldl step st).include_dirs.Nodup
  | [], _, h => h
  | e :: rest, st, h => foldl_nodup_incl rest (step st e) (nodup_incl_step e h)

/-! ### Reduction of `runLines` to a pure fold -/

theorem runLines_append (st : ParseState) (L1 L2 : List String) :
    runLines st (L1 ++ L2) =
      match runLines st L1 with
      | Except.error m => Except.error m
      | Except.ok st2 => runLines st2 L2 := by
  induction L1 generalizing st with
  | nil => rfl
  | cons l rest ih =>
    simp only [List.cons_append, runLines]
    cases processLine st l with
    | error m => rfl
    | ok st2 => exact ih st2

theorem runLines_ok_of_parse :
    ∀ (lines : List String) (entries : List Entry) (st : ParseState),
      parseAll lines = Except.ok entries →
      (∀ e ∈ entries, validType e.file_type) →
      runLines st lines = Except.ok (entries.foldl step st) := by
  intro lines
  induction lines with
  | nil =>
    intro entries st hp _
    cases hp
    rfl
  | cons l rest ih =>
    intro entries st hp hv
    unfold parseAll at hp
    cases hpl : parseLine l with
    | error m => rw [hpl] at hp; cases hp
    | ok e =>
      rw [hpl] at hp
      cases hpr : parseAll rest with
      | error m => rw [hpr] at hp; cases hp
      | ok es =>
        rw [hpr] at hp
        cases hp
        unfold runLines processLine
        simp only [hpl]
        rw [if_pos (hv e (List.mem_cons_self e es))]
        simp only [List.foldl_cons]
        exact ih es (step st e) hpr (fun x hx => hv x (List.mem_cons_of_mem _ hx))

theorem runLines_ok_inv :
    ∀ (lines : List String) (st st2 : ParseState),
      runLines st lines = Except.ok st2 →
      ∃ entries, parseAll lines = Except.ok entries ∧
        (∀ e ∈ entries, validType e.file_type) ∧
        st2 = entries.foldl step st := by
  intro lines
  induction lines with
  | nil =>
    intro st st2 h
    cases h
    exact ⟨[], rfl, fun e he => absurd he (List.not_mem_nil e), rfl⟩
  | cons l rest ih =>
    intro st st2 h
    unfold runLines at h
    cases hp : processLine st l with
    | error m => rw [hp] at h; cases h
    | ok st1 =>
      rw [hp] at h
      unfold processLine at hp
      cases hpl : parseLine l with
      | error m => rw [hpl] at hp; cases hp
      | ok e =>
        simp only [hpl] at hp
        by_cases hv : validType e.file_type
        · rw [if_pos hv] at hp
          injection hp with hp1
          subst hp1
          obtain ⟨es, h1, h2, h3⟩ := ih (step st e) st2 h
          refine ⟨e :: es, ?_, ?_, ?_⟩
          · unfold parseAll
            rw [hpl, h1]
          · intro x hx
            rcases List.mem_cons.mp hx with hx1 | hx1
            · subst hx1; exact hv
            · exact h2 x hx1
          · simpa using h3
        · rw [if_neg hv] at hp
          cases hp

theorem parseAll_mem :
    ∀ (lines : List String) (entries : List Entry) (l : String) (e : Entry),
      parseAll lines = Except.ok entries → l ∈ lines → parseLine l = Except.ok e →
      e ∈ entries := by
  intro lines
  induction lines with
  | nil => intro entries l e _ hl _; cases hl
  | cons x rest ih =>
    intro entries l e hp hl hpl
    unfold parseAll at hp
    cases hx : parseLine x with
    | error m => rw [hx] at hp; cases hp
    | ok ex =>
      rw [hx] at hp
      cases hr : parseAll rest with
      | error m => rw [hr] at hp; cases hp
      | ok es =>
        rw [hr] at hp
        cases hp
        rcases List.mem_cons.mp hl with h1 | h1
        · subst h1
          rw [hx] at hpl
          injection hpl with h2
          subst h2
          exact List.mem_cons_self _ _
        · exact List.mem_cons_of_mem _ (ih es l e hr h1 hpl)

theorem read_compile_order_ok_inv {lines : List String}
    {co : List (String × String)} {libs incs : List String}
    (h : read_compile_order lines = Except.ok (co, libs, incs)) :
    ∃ entries, parseAll lines = Except.ok entries ∧
      (∀ e ∈ entries, validType e.file_type) ∧
      (entries.foldl step initState).compile_order = co ∧
      (entries.foldl step initState).libraries = libs ∧
      (entries.foldl step initState).include_dirs = incs := by
  unfold read_compile_order at h
  cases hr : runLines initState lines with
  | error m => rw [hr] at h; cases h
  | ok st =>
    rw [hr] at h
    injection h with h1
    obtain ⟨entries, h2, h3, h4⟩ := runLines_ok_inv lines initState st hr
    subst h4
    simp only [Prod.mk.injEq] at h1
    exact ⟨entries, h2, h3, h1.1, h1.2.1, h1.2.2⟩

theorem read_compile_order_eq_of_parse {lines : List String} {entries : List Entry}
    (hp : parseAll lines = Except.ok entries)
    (hv : ∀ e ∈ entries, validType e.file_type) :
    read_compile_order lines =
      Except.ok ((entries.foldl step initState).compile_order,
        (entries.foldl step initState).libraries,
        (entries.foldl step initState).include_dirs) := by
  unfold read_compile_order
  rw [runLines_ok_of_parse lines entries initState hp hv]

/-! ### The compile list as the spec-side pipeline -/

theorem dedupByKey_nil : dedupByKey [] = [] := by
  simp [dedupByKey]

theorem dedupByKey_cons (e : Entry) (l : List Entry) :
    dedupByKey (e :: l) =
      e :: dedupByKey (l.filter (fun x => decide (entryKey x ≠ entryKey e))) := by
  simp [dedupByKey]

theorem refCompileList_nil : refCompileList [] = [] := by
  simp [refCompileList, dedupByKey_nil]

theorem refCompileList_cons (e : Entry) (l : List Entry) :
    refCompileList (e :: l) =
      (if e.file_type = tHeader then [] else [(e.library_name, e.file_name)]) ++
        refCompileList (l.filter (fun x => decide (entryKey x ≠ entryKey e))) := by
  unfold refCompileList
  rw [dedupByKey_cons, List.filter_cons]
  by_cases h : e.file_type = tHeader
  · simp [h]
  · simp [h]

theorem filter_key_append (rest : List Entry) (u : List (String × String))
    (k : String × String) :
    rest.filter (fun x => decide (entryKey x ∉ u ++ [k])) =
      (rest.filter (fun x => decide (entryKey x ∉ u))).filter
        (fun x => decide (entryKey x ≠ k)) := by
  rw [List.filter_filter]
  apply List.filter_congr
  intro x _
  by_cases h1 : entryKey x ∈ u
  · have h3 : entryKey x ∈ u ++ [k] := List.mem_append_left _ h1
    simp [h1, h3]
  · by_cases h2 : entryKey x = k
    · have h3 : entryKey x ∈ u ++ [k] :=
        List.mem_append_right _ (by rw [h2]; exact List.mem_singleton_self _)
      simp [h1, h2, h3]
    · have h3 : entryKey x ∉ u ++ [k] := by
        intro hc
        rcases List.mem_append.mp hc with hc1 | hc1
        · exact h1 hc1
        · exact h2 (List.mem_singleton.mp hc1)
      simp [h1, h2, h3]

theorem compile_order_foldl :
    ∀ (entries : List Entry) (st : ParseState),
      (entries.foldl step st).compile_order =
        st.compile_order ++
          refCompileList (entries.filter (fun x => decide (entryKey x ∉ st.unique))) := by
  intro entries
  induction entries with
  | nil =>
    intro st
    simp [refCompileList_nil]
  | cons e rest ih =>
    intro st
    simp only [List.foldl_cons, List.filter_cons]
    by_cases hk : entryKey e ∈ st.unique
    · have hstep : step st e =
          { st with libraries := insertIfAbsent e.library_name st.libraries } := by
        unfold step; rw [if_pos hk]
      rw [ih (step st e), hstep]
      simp [hk]
    · by_cases ht : e.file_type = tHeader
      · have hstep : step st e =
            { st with
              libraries := insertIfAbsent e.library_name st.libraries
              unique := st.unique ++ [entryKey e]
              include_dirs := insertIfAbsent (py_dirname e.file_name) st.include_dirs } := by
          unfold step; rw [if_neg hk, if_pos ht]
        rw [ih (step st e), hstep]
        show st.compile_order ++
            refCompileList (rest.filter (fun x => decide (entryKey x ∉ st.unique ++ [entryKey e]))) = _
        rw [filter_key_append]
        simp [hk, refCompileList_cons, ht]
      · have hstep : step st e =
            { st with
              libraries := insertIfAbsent e.library_name st.libraries
              unique := st.unique ++ [entryKey e]
              compile_order := st.compile_order ++ [(e.library_name, e.file_name)] } := by
          unfold step; rw [if_neg hk, if_neg ht]
        rw [ih (step st e), hstep]
        show (st.compile_order ++ [(e.library_name, e.file_name)]) ++
            refCompileList (rest.filter (fun x => decide (entryKey x ∉ st.unique ++ [entryKey e]))) = _
        rw [filter_key_append]
        simp [hk, refCompileList_cons, ht]

theorem compile_order_eq_refCompileList (entries : List Entry) :
    (entries.foldl step initState).compile_order = refCompileList entries := by
  rw [compile_order_foldl entries initState]
  have h1 : entries.filter (fun x => decide (entryKey x ∉ initState.unique)) = entries := by
    apply List.filter_eq_self.mpr
    intro a _
    simp [initState]
  rw [h1]
  rfl

theorem dedupByKey_subset :
    ∀ (n : Nat) (l : List Entry), l.length ≤ n → ∀ e ∈ dedupByKey l, e ∈ l := by
  intro n
  induction n with
  | zero =>
    intro l hl e he
    cases l with
    | nil => rw [dedupByKey_nil] at he; cases he
    | cons a r => simp at hl
  | succ n ih =>
    intro l hl e he
    cases l with
    | nil => rw [dedupByKey_nil] at he; cases he
    | cons a r =>
      rw [dedupByKey_cons] at he
      rcases List.mem_cons.mp he with h | h
      · subst h; exact List.mem_cons_self _ _
      · have hr : (r.filter (fun x => decide (entryKey x ≠ entryKey a))).length ≤ n := by
          have h2 := List.length_filter_le (fun x => decide (entryKey x ≠ entryKey a)) r
          simp only [List.length_cons, Nat.succ_le_succ_iff] at hl
          omega
        exact List.mem_cons_of_mem _ (List.mem_of_mem_filter (ih _ hr e h))

theorem keys_nodup_of_dedupByKey_aux :
    ∀ (n : Nat) (l : List Entry), l.length ≤ n → ((dedupByKey l).map entryKey).Nodup := by
  intro n
  induction n with
  | zero =>
    intro l hl
    cases l with
    | nil => rw [dedupByKey_nil]; exact List.nodup_nil
    | cons a r => simp at hl
  | succ n ih =>
    intro l hl
    cases l with
    | nil => rw [dedupByKey_nil]; exact List.nodup_nil
    | cons a r =>
      rw [dedupByKey_cons, List.map_cons, List.nodup_cons]
      have hlen : (r.filter (fun x => decide (entryKey x ≠ entryKey a))).length ≤ n := by
        have h2 := List.length_filter_le (fun x => decide (entryKey x ≠ entryKey a)) r
        simp only [List.length_cons, Nat.succ_le_succ_iff] at hl
        omega
      constructor
      · intro hc
        obtain ⟨x, hx1, hx2⟩ := List.mem_map.mp hc
        have hx3 := dedupByKey_subset _ _ (le_refl _) x hx1
        have hx4 : entryKey x ≠ entryKey a := by
          have h5 := List.of_mem_filter hx3
          simpa using h5
        exact hx4 hx2
      · exact ih _ hlen

theorem keys_nodup_of_dedupByKey (l : List Entry) :
    ((dedupByKey l).map entryKey).Nodup :=
  keys_nodup_of_dedupByKey_aux l.length l (le_refl _)

theorem refCompileList_mem {p : String × String} {l : List Entry}
    (h : p ∈ refCompileList l) :
    ∃ e, e ∈ l ∧ e.file_type ≠ tHeader ∧ p = (e.library_name, e.file_name) := by
  unfold refCompileList at h
  obtain ⟨e, he1, he2⟩ := List.mem_map.mp h
  have he3 := List.mem_of_mem_filter he1
  have he4 : e.file_type ≠ tHeader := by
    have h5 := List.of_mem_filter he1
    simpa using h5
  exact ⟨e, dedupByKey_subset l.length l (le_refl _) e he3, he4, he2.symm⟩

theorem refCompileList_keys_nodup (l : List Entry) :
    ((refCompileList l).map (fun p => (p.1, py_basename p.2))).Nodup := by
  unfold refCompileList
  rw [List.map_map]
  have h1 : ((fun p : String × String => (p.1, py_basename p.2)) ∘
      (fun e : Entry => (e.library_name, e.file_name))) = entryKey := rfl
  rw [h1]
  exact List.Nodup.sublist
    (List.Sublist.map entryKey (List.filter_sublist _))
    (keys_nodup_of_dedupByKey l)

/-! ### Lemmas for the include-directory collection -/

theorem unique_foldl_sub {k : String × String} :
    ∀ (entries : List Entry) (st : ParseState),
      k ∈ (entries.foldl step st).unique →
      k ∈ st.unique ∨ ∃ e ∈ entries, entryKey e = k := by
  intro entries
  induction entries with
  | nil => intro st h; exact Or.inl h
  | cons e rest ih =>
    intro st h
    rcases ih (step st e) h with h1 | h1
    · rcases mem_unique_step h1 with h2 | h2
      · exact Or.inl h2
      · exact Or.inr ⟨e, List.mem_cons_self _ _, h2.symm⟩
    · obtain ⟨x, hx1, hx2⟩ := h1
      exact Or.inr ⟨x, List.mem_cons_of_mem _ hx1, hx2⟩

theorem header_dir_mem_foldl :
    ∀ (pre : List Entry) (e : Entry) (post : List Entry) (st : ParseState),
      e.file_type = tHeader →
      entryKey e ∉ st.unique →
      (∀ x ∈ pre, entryKey x ≠ entryKey e) →
      py_dirname e.file_name ∈ ((pre ++ e :: post).foldl step st).include_dirs := by
  intro pre
  induction pre with
  | nil =>
    intro e post st ht hk _
    simp only [List.nil_append, List.foldl_cons]
    apply foldl_incl_mono
    unfold step
    rw [if_neg hk, if_pos ht]
    exact mem_insertIfAbsent_self _ _
  | cons a pre ih =>
    intro e post st ht hk hpre
    simp only [List.cons_append, List.foldl_cons]
    apply ih e post (step st a) ht ?_ (fun x hx => hpre x (List.mem_cons_of_mem _ hx))
    intro hc
    rcases mem_unique_step hc with h1 | h1
    · exact hk h1
    · exact hpre a (List.mem_cons_self _ _) h1.symm

/-! ### Lemmas about the registration loop -/

theorem length_addSourceFiles (incs : List String) :
    ∀ (prev : Option Nat) (i : Nat) (co : List (String × String)),
      (addSourceFiles incs prev i co).length = co.length
  | _, _, [] => rfl
  | prev, i, (_, _) :: rest => by
    simp only [addSourceFiles, List.length_cons]
    rw [length_addSourceFiles incs (some i) (i + 1) rest]

theorem someRange_succ (i n : Nat) :
    someRange i (n + 1) = some i :: someRange (i + 1) n := by
  unfold someRange
  rw [List.range_succ_eq_map, List.map_cons, List.map_map]
  congr 1
  apply List.map_congr_left
  intro j _
  show some (i + Nat.succ j) = some (i + 1 + j)
  have h : i + Nat.succ j = i + 1 + j := by omega
  rw [h]

theorem map_dependency_addSourceFiles (incs : List String) :
    ∀ (co : List (String × String)) (prev : Option Nat) (i : Nat),
      (addSourceFiles incs prev i co).map (fun r => r.dependency) =
        (match co with
        | [] => []
        | _ :: rest => prev :: someRange i rest.length) := by
  intro co
  induction co with
  | nil => intro prev i; rfl
  | cons p rest ih =>
    intro prev i
    cases p with
    | mk lname fname =>
      simp only [addSourceFiles, List.map_cons]
      rw [ih (some i) (i + 1)]
      cases rest with
      | nil => rfl
      | cons q rest2 =>
        simp [List.length_cons, someRange_succ]

theorem map_dependency_chain (incs : List String) (co : List (String × String)) :
    (addSourceFiles incs none 0 co).map (fun r => r.dependency) = chainDeps co.length := by
  rw [map_dependency_addSourceFiles]
  cases co with
  | nil => rfl
  | cons p rest => simp [chainDeps, List.length_cons]

theorem countP_someRange (i n : Nat) :
    (someRange i n).countP (fun o => o.isSome) = n := by
  induction n generalizing i with
  | zero => rfl
  | succ n ih =>
    rw [someRange_succ, List.countP_cons]
    simp [ih (i + 1)]

theorem countP_chainDeps (n : Nat) :
    (chainDeps n).countP (fun o => o.isSome) = n - 1 := by
  cases n with
  | zero => rfl
  | succ n =>
    show (none :: someRange 0 n).countP (fun o => o.isSome) = n + 1 - 1
    rw [List.countP_cons]
    simp [countP_someRange]

theorem mem_addSourceFiles (incs : List String) :
    ∀ (co : List (String × String)) (prev : Option Nat) (i : Nat) (r : SourceFileReg),
      r ∈ addSourceFiles incs prev i co →
      r.no_parse = decide (r.library_name ≠ defaultLib) ∧
      r.include_dirs_arg = (if is_verilog r.file_name then some incs else none) := by
  intro co
  induction co with
  | nil => intro prev i r h; cases h
  | cons p rest ih =>
    intro prev i r h
    cases p with
    | mk lname fname =>
      simp only [addSourceFiles] at h
      rcases List.mem_cons.mp h with h1 | h1
      · subst h1
        exact ⟨rfl, rfl⟩
      · exact ih (some i) (i + 1) r h1

theorem add_from_compile_order_inv {lines : List String}
    {co : List (String × String)} {libs incs libs2 : List String}
    {regs : List SourceFileReg}
    (hr : read_compile_order lines = Except.ok (co, libs, incs))
    (ha : add_from_compile_order_file lines = Except.ok (libs2, regs)) :
    libs2 = libs ∧ regs = addSourceFiles incs none 0 co := by
  unfold add_from_compile_order_file at ha
  rw [hr] at ha
  simp only [Except.ok.injEq, Prod.mk.injEq] at ha
  exact ⟨ha.1.symm, ha.2.symm⟩

/-! ### A later line with an already-seen key changes nothing -/

theorem read_append_dup_noop {lines : List String} {l : String} {e : Entry}
    (hp : parseLine l = Except.ok e)
    (hv : validType e.file_type)
    (hseen : ∃ l2 ∈ lines, ∃ e2, parseLine l2 = Except.ok e2 ∧ entryKey e2 = entryKey e)
    (hok : ∃ res, read_compile_order lines = Except.ok res) :
    read_compile_order (lines ++ [l]) = read_compile_order lines := by
  obtain ⟨res, hok⟩ := hok
  unfold read_compile_order at hok ⊢
  cases hrun : runLines initState lines with
  | error m => rw [hrun] at hok; cases hok
  | ok st =>
    obtain ⟨entries, hpa, hva, hst⟩ := runLines_ok_inv lines initState st hrun
    obtain ⟨l2, hl2, e2, hpe2, hke⟩ := hseen
    have he2 : e2 ∈ entries := parseAll_mem lines entries l2 e2 hpa hl2 hpe2
    have hkmem : entryKey e ∈ st.unique := by
      rw [hst, ← hke]
      exact foldl_key_mem entries initState he2
    have hgood : stateGood st := by
      rw [hst]
      exact foldl_stateGood entries initState stateGood_init
    have hlib : e.library_name ∈ st.libraries := hgood (entryKey e) hkmem
    have hstep : step st e = st := step_eq_of_seen hkmem hlib
    have hpl2 : processLine st l = Except.ok st := by
      unfold processLine
      simp only [hp]
      rw [if_pos hv, hstep]
    have hrl : runLines st [l] = Except.ok st := by
      unfold runLines
      rw [hpl2]
      rfl
    rw [runLines_append, hrun]
    show (match runLines st [l] with
      | Except.error m => Except.error m
      | Except.ok st2 => Except.ok (st2.compile_order, st2.libraries, st2.include_dirs)) =
      Except.ok (st.compile_order, st.libraries, st.include_dirs)
    rw [hrl]

/-! ### A bad line aborts the whole parse -/

theorem runLines_error_of_bad_line :
    ∀ (lines : List String) (st : ParseState) (l : String),
      l ∈ lines →
      (∀ st2 : ParseState, ∃ m, processLine st2 l = Except.error m) →
      ∃ m, runLines st lines = Except.error m := by
  intro lines
  induction lines with
  | nil => intro st l hl _; cases hl
  | cons x rest ih =>
    intro st l hl hbad
    rcases List.mem_cons.mp hl with h1 | h1
    · subst h1
      obtain ⟨m, hm⟩ := hbad st
      refine ⟨m, ?_⟩
      unfold runLines
      rw [hm]
    · cases hx : processLine st x with
      | error m =>
        refine ⟨m, ?_⟩
        unfold runLines
        rw [hx]
      | ok st2 =>
        obtain ⟨m, hm⟩ := ih st2 l h1 hbad
        refine ⟨m, ?_⟩
        unfold runLines
        rw [hx]
        exact hm

theorem read_error_of_bad_line {lines : List String} {l : String}
    (hl : l ∈ lines)
    (hbad : ∀ st : ParseState, ∃ m, processLine st l = Except.error m) :
    ∃ m, read_compile_order lines = Except.error m := by
  obtain ⟨m, hm⟩ := runLines_error_of_bad_line lines initState l hl hbad
  refine ⟨m, ?_⟩
  unfold read_compile_order
  rw [hm]

theorem processLine_error_of_bad_type {l : String} {e : Entry}
    (hp : parseLine l = Except.ok e) (hv : ¬ validType e.file_type) (st : ParseState) :
    processLine st l = Except.error assertErrorMsg := by
  unfold processLine
  simp only [hp]
  rw [if_neg hv]

/-! ### Lines with fewer than two commas raise `ValueError` -/

theorem breakComma_none_of_no_comma :
    ∀ l : List Char, l.count ',' = 0 → (breakComma l).2 = none := by
  intro l
  induction l with
  | nil => intro _; rfl
  | cons c cs ih =>
    intro h
    have hc : ¬ c = ',' := by
      intro hc
      rw [List.count_cons] at h
      simp [hc] at h
    have h2 : cs.count ',' = 0 := by
      rw [List.count_cons] at h
      simpa [hc] using h
    unfold breakComma
    rw [if_neg hc]
    exact ih h2

theorem breakComma_some_count :
    ∀ (l : List Char) (r : List Char), (breakComma l).2 = some r →
      l.count ',' = r.count ',' + 1 := by
  intro l
  induction l with
  | nil => intro r h; cases h
  | cons c cs ih =>
    intro r h
    unfold breakComma at h
    by_cases hc : c = ','
    · rw [if_pos hc] at h
      injection h with h1
      subst h1
      rw [List.count_cons]
      simp [hc]
    · rw [if_neg hc] at h
      have h2 : (breakComma cs).2 = some r := h
      rw [List.count_cons]
      simp [hc]
      exact ih r h2

theorem parseLine_error_of_few_commas {l : String}
    (h : (pyStrip l).data.count ',' < 2) :
    parseLine l = Except.error valueErrorMsg := by
  cases hb : breakComma (pyStrip l).data with
  | mk a o =>
    cases o with
    | none =>
      unfold parseLine
      simp only [pySplit2, hb]
    | some r =>
      have hr : r.count ',' = 0 := by
        have h1 := breakComma_some_count (pyStrip l).data r (by rw [hb])
        omega
      have hb2 := breakComma_none_of_no_comma r hr
      cases hb3 : breakComma r with
      | mk b o2 =>
        cases o2 with
        | none =>
          unfold parseLine
          simp only [pySplit2, hb, hb3]
        | some r2 =>
          rw [hb3] at hb2
          exact Option.noConfusion hb2

/-! ### The claims -/

/-- C1 (amended): for a well-formed compile-order file the compile list
equals the spec-side pipeline — deduplicate all parsed lines by
(library, basename) key keeping first occurrences, drop the header lines,
and project to (library, path) — so there is exactly one entry per distinct
key whose first occurrence is a non-header line, in first-occurrence order;
a pair whose first occurrence is a header line contributes no entry.  The
projected keys of the compile list are duplicate-free. -/
theorem compile_list_is_first_seen_nonheader_pairs
    (lines : List String) (entries : List Entry)
    (co : List (String × String)) (libs incs : List String)
    (hp : parseAll lines = Except.ok entries)
    (hr : read_compile_order lines = Except.ok (co, libs, incs)) :
    co = refCompileList entries ∧
    (co.map (fun p => (p.1, py_basename p.2))).Nodup := by
  obtain ⟨entries2, hp2, hv2, hco, hlibs, hincs⟩ := read_compile_order_ok_inv hr
  rw [hp] at hp2
  injection hp2 with h1
  subst h1
  constructor
  · rw [← hco, compile_order_eq_refCompileList]
  · rw [← hco, compile_order_eq_refCompileList]
    exact refCompileList_keys_nodup _

/-- C1 (witness): the specification's worked example. -/
theorem compile_list_is_first_seen_nonheader_pairs_witness :
    [(sLibA, paVhd), (sLibB, pbV)] = refCompileList wEntries ∧
    (([(sLibA, paVhd), (sLibB, pbV)] : List (String × String)).map
      (fun p => (p.1, py_basename p.2))).Nodup :=
  compile_list_is_first_seen_nonheader_pairs wLines wEntries
    [(sLibA, paVhd), (sLibB, pbV)] [sLibA, sLibB] [pInc] (by rfl) (by rfl)

/-- C1 (counterexample to the claim as stated): a file whose header line
precedes a source line with the same (library, basename) key yields an empty
compile list, although the non-header lines contain one distinct key — so the
compile list does not have one entry per distinct key among non-header
lines. -/
theorem compile_list_per_nonheader_pair_counterexample :
    read_compile_order cexHeaderFirstLines = Except.ok ([], [sLibA], [pDir]) ∧
    parseAll cexHeaderFirstLines =
      Except.ok [Entry.mk sLibA tHeader paVh, Entry.mk sLibA tVHDL qaVh] ∧
    (Entry.mk sLibA tVHDL qaVh).file_type ≠ tHeader ∧
    entryKey (Entry.mk sLibA tVHDL qaVh) = (sLibA, aVh) :=
  ⟨by rfl, by rfl, by decide, by rfl⟩

/-- C2: a later line whose (library, basename) key was already seen on an
earlier line — even with a different full path — is silently dropped:
appending it leaves every output of the parser unchanged. -/
theorem duplicate_key_line_dropped
    (lines : List String) (l l2 : String) (e e2 : Entry)
    (res : List (String × String) × List String × List String)
    (hl2 : l2 ∈ lines)
    (hp2 : parseLine l2 = Except.ok e2)
    (hp : parseLine l = Except.ok e)
    (hv : validType e.file_type)
    (hkey : entryKey e = entryKey e2)
    (hpath : e.file_name ≠ e2.file_name)
    (hok : read_compile_order lines = Except.ok res) :
    read_compile_order (lines ++ [l]) = read_compile_order lines :=
  read_append_dup_noop hp hv ⟨l2, hl2, e2, hp2, hkey.symm⟩ ⟨res, hok⟩

/-- C2 (witness): the same basename under two different directories. -/
theorem duplicate_key_line_dropped_witness :
    read_compile_order ([dupLineA] ++ [dupLineB]) = read_compile_order [dupLineA] :=
  duplicate_key_line_dropped [dupLineA] dupLineB dupLineA
    (Entry.mk sLibA tVHDL p2aVhd) (Entry.mk sLibA tVHDL paVhd)
    ([(sLibA, paVhd)], [sLibA], [])
    (List.mem_singleton_self _) (by rfl) (by rfl) (by decide) (by rfl) (by decide) (by rfl)

/-- C3 (amended): every compile-list element stems from a non-header line;
the include-directory collection is duplicate-free; and every header line
whose key is not claimed by any earlier line contributes its parent directory
exactly once — even when several header lines share that directory.  Amended
from the claim as stated: a header line whose key already occurred on an
earlier line contributes nothing. -/
theorem header_lines_and_include_dirs
    (lines : List String) (entries : List Entry)
    (co : List (String × String)) (libs incs : List String)
    (hp : parseAll lines = Except.ok entries)
    (hr : read_compile_order lines = Except.ok (co, libs, incs)) :
    (∀ p ∈ co, ∃ e, e ∈ entries ∧ e.file_type ≠ tHeader ∧
      p = (e.library_name, e.file_name)) ∧
    incs.Nodup ∧
    (∀ (pre : List Entry) (e : Entry) (post : List Entry),
      entries = pre ++ e :: post →
      e.file_type = tHeader →
      (∀ x ∈ pre, entryKey x ≠ entryKey e) →
      incs.count (py_dirname e.file_name) = 1) := by
  obtain ⟨entries2, hp2, hv2, hco, hlibs, hincs⟩ := read_compile_order_ok_inv hr
  rw [hp] at hp2
  injection hp2 with h1
  subst h1
  have hnd : incs.Nodup := by
    rw [← hincs]
    exact foldl_nodup_incl _ initState List.nodup_nil
  refine ⟨?_, hnd, ?_⟩
  · intro p hb
    rw [← hco, compile_order_eq_refCompileList] at hb
    exact refCompileList_mem hb
  · intro pre e post hsplit ht hpre
    have hmem : py_dirname e.file_name ∈ incs := by
      rw [← hincs, hsplit]
      exact header_dir_mem_foldl pre e post initState ht (List.not_mem_nil _) hpre
    exact List.count_eq_one_of_mem hnd hmem

/-- C3 (witness): the specification's worked example. -/
theorem header_lines_and_include_dirs_witness :
    (∀ p ∈ ([(sLibA, paVhd), (sLibB, pbV)] : List (String × String)),
      ∃ e, e ∈ wEntries ∧ e.file_type ≠ tHeader ∧
        p = (e.library_name, e.file_name)) ∧
    ([pInc] : List String).Nodup ∧
    (∀ (pre : List Entry) (e : Entry) (post : List Entry),
      wEntries = pre ++ e :: post →
      e.file_type = tHeader →
      (∀ x ∈ pre, entryKey x ≠ entryKey e) →
      ([pInc] : List String).count (py_dirname e.file_name) = 1) :=
  header_lines_and_include_dirs wLines wEntries
    [(sLibA, paVhd), (sLibB, pbV)] [sLibA, sLibB] [pInc] (by rfl) (by rfl)

/-- C3 (counterexample to the claim as stated): a source line followed by a
header line with the same key: the header line's parent directory /q appears
zero times, not once, in the returned include-directory collection. -/
theorem header_dir_exactly_once_counterexample :
    read_compile_order cexSourceFirstLines =
      Except.ok ([(sLibA, phVh)], [sLibA], []) ∧
    parseAll cexSourceFirstLines =
      Except.ok [Entry.mk sLibA tVerilog phVh, Entry.mk sLibA tHeader qhVh] ∧
    py_dirname qhVh = qDir ∧
    ¬ qDir ∈ ([] : List String) :=
  ⟨by rfl, by rfl, by rfl, List.not_mem_nil _⟩

/-- C4: registering a compile list of size N produces exactly N
registrations whose dependency column is the linear chain
[none, some 0, ..., some (N-2)]: N-1 edges, each file depending on the
immediately preceding one regardless of library, the first file getting no
edge. -/
theorem dependency_chain_structure
    (lines : List String) (co : List (String × String)) (libs incs libs2 : List String)
    (regs : List SourceFileReg)
    (hr : read_compile_order lines = Except.ok (co, libs, incs))
    (ha : add_from_compile_order_file lines = Except.ok (libs2, regs))
    (hn : 0 < co.length) :
    regs.length = co.length ∧
    regs.map (fun r => r.dependency) = chainDeps co.length ∧
    regs.countP (fun r => r.dependency.isSome) = co.length - 1 := by
  obtain ⟨hlibs, hregs⟩ := add_from_compile_order_inv hr ha
  subst hregs
  refine ⟨length_addSourceFiles incs none 0 co, map_dependency_chain incs co, ?_⟩
  have h1 := List.countP_map (fun o : Option Nat => o.isSome)
    (fun r : SourceFileReg => r.dependency) (addSourceFiles incs none 0 co)
  rw [map_dependency_chain incs co, countP_chainDeps] at h1
  exact h1.symm

/-- C4 (witness): the worked example registers 2 files with 1 edge. -/
theorem dependency_chain_structure_witness :
    wRegs.length = ([(sLibA, paVhd), (sLibB, pbV)] : List (String × String)).length ∧
    wRegs.map (fun r => r.dependency) =
      chainDeps ([(sLibA, paVhd), (sLibB, pbV)] : List (String × String)).length ∧
    wRegs.countP (fun r => r.dependency.isSome) =
      ([(sLibA, paVhd), (sLibB, pbV)] : List (String × String)).length - 1 :=
  dependency_chain_structure wLines [(sLibA, paVhd), (sLibB, pbV)]
    [sLibA, sLibB] [pInc] [sLibA, sLibB] wRegs (by rfl) (by rfl) (by decide)

/-- C5: every registration passes the include-directory set exactly when the
file name has a Verilog extension (.v or .vp), and enables
dependency-analysis parsing (no_parse = false) exactly when its library is
the default working library xil_defaultlib. -/
theorem include_dirs_and_no_parse_wiring
    (lines : List String) (co : List (String × String)) (libs incs libs2 : List String)
    (regs : List SourceFileReg) (r : SourceFileReg)
    (hr : read_compile_order lines = Except.ok (co, libs, incs))
    (ha : add_from_compile_order_file lines = Except.ok (libs2, regs))
    (hmem : r ∈ regs) :
    r.include_dirs_arg = (if is_verilog r.file_name then some incs else none) ∧
    (r.no_parse = false ↔ r.library_name = defaultLib) := by
  obtain ⟨hlibs, hregs⟩ := add_from_compile_order_inv hr ha
  subst hregs
  obtain ⟨h1, h2⟩ := mem_addSourceFiles incs co none 0 r hmem
  refine ⟨h2, ?_⟩
  rw [h1]
  constructor
  · intro h3
    by_contra h4
    simp [h4] at h3
  · intro h3
    simp [h3]

/-- C5 (witness): the Verilog file of the worked example receives the
include directories; its library is not the default one, so no_parse. -/
theorem include_dirs_and_no_parse_wiring_witness :
    wReg1.include_dirs_arg =
      (if is_verilog wReg1.file_name then some [pInc] else none) ∧
    (wReg1.no_parse = false ↔ wReg1.library_name = defaultLib) :=
  include_dirs_and_no_parse_wiring wLines [(sLibA, paVhd), (sLibB, pbV)]
    [sLibA, sLibB] [pInc] [sLibA, sLibB] wRegs wReg1 (by rfl) (by rfl) (by decide)

/-- C6: a line whose type field is none of the three recognized strings makes
the whole parse fail with an error; no result is produced. -/
theorem unrecognized_type_fails
    (lines : List String) (l : String) (e : Entry)
    (hl : l ∈ lines)
    (hp : parseLine l = Except.ok e)
    (hbad : ¬ validType e.file_type) :
    ∃ m, read_compile_order lines = Except.error m :=
  read_error_of_bad_line hl
    (fun st => ⟨assertErrorMsg, processLine_error_of_bad_type hp hbad st⟩)

/-- C6 (witness): a SystemC line aborts the parse. -/
theorem unrecognized_type_fails_witness :
    ∃ m, read_compile_order [badTypeLine] = Except.error m :=
  unrecognized_type_fails [badTypeLine] badTypeLine (Entry.mk sLibA sysC xVhd)
    (List.mem_singleton_self _) (by rfl) (by decide)

/-- C7: run_vivado returns normally iff the subprocess exits with status 0;
a non-zero exit status raises CalledProcessError, which propagates to the
caller unchanged — no retry, no partial result. -/
theorem run_vivado_exit_semantics
    (runner : Option String → String → Int) (abspath : String → String)
    (tcl_file_name : String) (tcl_args : Option (List String)) (cwd : Option String)
    (vivado_path : Option String) :
    (runner cwd (build_vivado_cmd abspath tcl_file_name tcl_args vivado_path) = 0 →
      run_vivado runner abspath tcl_file_name tcl_args cwd vivado_path = Except.ok ()) ∧
    (runner cwd (build_vivado_cmd abspath tcl_file_name tcl_args vivado_path) ≠ 0 →
      run_vivado runner abspath tcl_file_name tcl_args cwd vivado_path =
        Except.error calledProcessErrorMsg) := by
  constructor
  · intro h
    unfold run_vivado check_call
    rw [if_pos h]
  · intro h
    unfold run_vivado check_call
    rw [if_neg h]

/-- C7 (witness): exit status 1 gives the error, exit status 0 returns. -/
theorem run_vivado_exit_semantics_witness :
    run_vivado (fun _ _ => (1 : Int)) id extractTclName none none none =
      Except.error calledProcessErrorMsg ∧
    run_vivado (fun _ _ => (0 : Int)) id extractTclName none none none =
      Except.ok () :=
  ⟨(run_vivado_exit_semantics (fun _ _ => (1 : Int)) id extractTclName none none none).2
      (by decide),
    (run_vivado_exit_semantics (fun _ _ => (0 : Int)) id extractTclName none none none).1
      (by rfl)⟩

/-- C8: deduplication is keyed on (library, basename) across line types: a
line whose key matches an earlier line of the other type family contributes
nothing — a source line after a same-key header line is omitted from the
compile list, and a header line after a same-key source line contributes no
include directory, since appending either leaves all outputs unchanged. -/
theorem dedup_across_line_types
    (lines : List String) (l l2 : String) (e e2 : Entry)
    (res : List (String × String) × List String × List String)
    (hl2 : l2 ∈ lines)
    (hp2 : parseLine l2 = Except.ok e2)
    (hp : parseLine l = Except.ok e)
    (hkey : entryKey e = entryKey e2)
    (hcross : (e2.file_type = tHeader ∧ (e.file_type = tVerilog ∨ e.file_type = tVHDL)) ∨
      ((e2.file_type = tVerilog ∨ e2.file_type = tVHDL) ∧ e.file_type = tHeader))
    (hok : read_compile_order lines = Except.ok res) :
    read_compile_order (lines ++ [l]) = read_compile_order lines := by
  have hv : validType e.file_type := by
    rcases hcross with ⟨_, h⟩ | ⟨_, h⟩
    · rcases h with h | h
      · exact Or.inl h
      · exact Or.inr (Or.inl h)
    · exact Or.inr (Or.inr h)
  exact read_append_dup_noop hp hv ⟨l2, hl2, e2, hp2, hkey.symm⟩ ⟨res, hok⟩

/-- C8 (witness): a header line following a same-key source line changes
nothing. -/
theorem dedup_across_line_types_witness :
    read_compile_order ([srcLine] ++ [hdrLine]) = read_compile_order [srcLine] :=
  dedup_across_line_types [srcLine] hdrLine srcLine
    (Entry.mk sLibA tHeader qhVh) (Entry.mk sLibA tVerilog phVh)
    ([(sLibA, phVh)], [sLibA], [])
    (List.mem_singleton_self _) (by rfl) (by rfl) (by rfl)
    (Or.inr ⟨Or.inl rfl, rfl⟩) (by rfl)

/-- C9: a line whose stripped text has fewer than two commas (for example a
blank line) makes the three-way unpacking fail with ValueError; the whole
parse aborts with an error and returns no outputs. -/
theorem short_line_unpack_error
    (lines : List String) (l : String)
    (hl : l ∈ lines)
    (hc : (pyStrip l).data.count ',' < 2) :
    ∃ m, read_compile_order lines = Except.error m :=
  read_error_of_bad_line hl (fun st => ⟨valueErrorMsg, by
    unfold processLine
    rw [parseLine_error_of_few_commas hc]⟩)

/-- C9 (witness): a blank line aborts the parse. -/
theorem short_line_unpack_error_witness :
    ∃ m, read_compile_order [blankLine] = Except.error m :=
  short_line_unpack_error [blankLine] blankLine (List.mem_singleton_self _) (by decide)

/-- C10: when the output path has no directory component, the
directory-existence check on the empty string is false and the directory
creation raises FileNotFoundError, for every possible subprocess behavior —
so the failure happens before the external tool is invoked. -/
theorem empty_dirname_makedirs_error
    (fs : List String) (runner : Option String → String → Int)
    (abspath : String → String) (file_dir project_file compile_order_file : String)
    (vivado_path : Option String)
    (h : py_dirname compile_order_file = String.mk []) :
    py_exists fs (String.mk []) = false ∧
    create_compile_order_file fs runner abspath file_dir project_file
      compile_order_file vivado_path = Except.error fileNotFoundMsg := by
  constructor
  · unfold py_exists
    rw [if_pos rfl]
  · unfold create_compile_order_file
    rw [h]
    simp [py_exists, py_makedirs]

/-- C10 (witness): an output path of a bare file name. -/
theorem empty_dirname_makedirs_error_witness :
    py_exists [] (String.mk []) = false ∧
    create_compile_order_file [] (fun _ _ => (0 : Int)) id pDir pDir outCsv none =
      Except.error fileNotFoundMsg :=
  empty_dirname_makedirs_error [] (fun _ _ => (0 : Int)) id pDir pDir outCsv none (by rfl)

end Vivado
